import Mathlib

/-!
Verification of the Hudddle backend core (hudddle.backend).

Part 1 embeds the in-memory websocket manager (app_src/manager.py):
connection registry, presence tracker, rate limiter, message router and
broadcaster, as pure functions over an explicit state record.  Python
exceptions are modelled by an error component threaded through every
operation, with the state at the moment the exception escapes.

Part 2 embeds the session finalization pipeline
(app_src/arq_tasks.py, process_workroom_end_session) and the leaderboard
recomputation (app_src/workroom/service.py, update_workroom_leaderboard).

Modelling conventions:
* an association list models a Python dict (one binding per key,
  insertion order preserved, updates in place, new keys appended);
* the client state of a websocket is held fixed for the duration of one
  manager operation (state transitions happen between operations);
* database and collaborator calls are suspension points whose outcomes
  are supplied by an environment record;
* the literal Python set payloads written as three dots in the source
  are modelled by a dedicated unserializable message constructor, since
  json.dumps raises TypeError on a set.
-/

namespace Hudddle

/-- starlette client-side websocket state, held fixed per operation. -/
inductive WSState
  | connected
  | disconnected
deriving DecidableEq, Repr

/-- Outcome of attempting a json send on the transport. -/
inductive SendBehavior
  | ok
  | closeRuntimeErr
  | otherErr
deriving DecidableEq, Repr

/-- A websocket handle: identity, client state and transport behavior. -/
structure WS where
  id : Nat
  state : WSState
  send : SendBehavior
deriving DecidableEq, Repr

/-- Python exceptions that the embedded code can raise. -/
inductive PyErr
  | typeErr
  | keyErr
  | attrErr
  | runtimeErr
  | appErr (msg : String)
deriving DecidableEq, Repr

/-- Dict lookup on an association list. -/
def aget (k : String) : List (String × α) → Option α
  | [] => none
  | (k2, v) :: rest => if k2 = k then some v else aget k rest

/-- Dict assignment: update in place, or append a new binding. -/
def aset (k : String) (v : α) : List (String × α) → List (String × α)
  | [] => [(k, v)]
  | (k2, v2) :: rest => if k2 = k then (k2, v) :: rest else (k2, v2) :: aset k v rest

/-- Dict deletion (pop with default None). -/
def adel (k : String) : List (String × α) → List (String × α)
  | [] => []
  | (k2, v2) :: rest => if k2 = k then rest else (k2, v2) :: adel k rest

/-- A chat message document in the external message store. -/
structure StoredMsg where
  workroom_id : String
  sender_id : String
  content : String
  edited : Bool
  deleted : Bool
  read_by : List String
deriving DecidableEq, Repr

/-- Cached user profile data (get_user_data result for a found user). -/
structure UserProfile where
  id : String
  username : String
deriving DecidableEq, Repr

/-- Per (room, user) presence record. -/
structure PresenceEntry where
  status : String
  last_active : Nat
deriving DecidableEq, Repr

/-- Outbound envelopes.  placeholderSet stands for the literal Python
set payloads in the source, which json.dumps cannot serialize. -/
inductive OutMsg
  | sessionState
  | presenceJoin (user : Option UserProfile)
  | presenceLeave (user : Option UserProfile)
  | presenceUpdate (users : List (String × PresenceEntry))
  | chatMsg (mid : String) (sender : Option UserProfile) (content : String)
  | msgEdited (mid : String) (newContent : String) (editedBy : Option UserProfile)
  | msgDeleted (mid : String) (deletedBy : Option UserProfile)
  | msgViewed (mid : String) (viewedBy : Option UserProfile)
  | msgHistory (count : Nat) (hasMore : Bool)
  | userTyping (uid : String) (user : Option UserProfile) (isTyping : Bool)
  | errorText (msg : String)
  | accessDenied (room : String)
  | placeholderSet
deriving DecidableEq, Repr

/-- Environment: outcomes of database / collaborator calls made by the
manager during one operation. -/
structure ManagerEnv where
  access : String → String → Bool
  userFound : String → Bool
  usernameOf : String → String
  history : List StoredMsg
  newMsgId : String
deriving Inhabited

/-- get_user_data: profile for a user id, empty dict when not found. -/
def get_user_data (env : ManagerEnv) (uid : String) : Option UserProfile :=
  if env.userFound uid then some ⟨uid, env.usernameOf uid⟩ else none

/-- The manager state: module-level dicts of WebSocketManager, plus the
external NoSQL message store (keyed by message id). -/
structure MState where
  active_connections : List (String × List (String × WS))
  presence_data : List (String × List (String × PresenceEntry))
  message_rates : List (String × List (String × Nat))
  last_reset : Nat
  nosql_messages : List (String × StoredMsg)
deriving DecidableEq, Repr

/-- Result of one manager operation: final state, sends that reached a
transport (websocket id, payload), and the escaping exception if any. -/
structure Res where
  st : MState
  sends : List (Nat × OutMsg)
  err : Option PyErr
deriving DecidableEq, Repr

/-- Whether json.dumps succeeds on a payload. -/
def serializable : OutMsg → Bool
  | .placeholderSet => false
  | _ => true

/-- safe_send: sends only on a connected socket; a RuntimeError carrying
the close marker is swallowed, any other exception propagates. -/
def safe_send (ws : WS) (m : OutMsg) : List (Nat × OutMsg) × Option PyErr :=
  if ws.state = .connected then
    if serializable m then
      match ws.send with
      | .ok => ([(ws.id, m)], none)
      | .closeRuntimeErr => ([], none)
      | .otherErr => ([], some .runtimeErr)
    else ([], some .typeErr)
  else ([], none)

/-- Broadcast loop over a snapshot of the room dict; cur is the live
dict (deletions prune it).  A None exclude list reproduces the source
default: the membership test on None raises TypeError at the first
iteration.  Any exception from a send prunes that connection. -/
def broadcastGo (msg : OutMsg) (exclude : Option (List String)) :
    List (String × WS) → List (String × WS) →
    List (String × WS) × List (Nat × OutMsg) × Option PyErr
  | [], cur => (cur, [], none)
  | (uid, ws) :: rest, cur =>
    match exclude with
    | none => (cur, [], some .typeErr)
    | some ex =>
      if uid ∈ ex then broadcastGo msg exclude rest cur
      else
        match safe_send ws msg with
        | (evs, none) =>
          let r := broadcastGo msg exclude rest cur
          (r.1, evs ++ r.2.1, r.2.2)
        | (_, some _) =>
          broadcastGo msg exclude rest (adel uid cur)

/-- WebSocketManager.broadcast. -/
def broadcast (st : MState) (room : String) (msg : OutMsg)
    (exclude : Option (List String)) : Res :=
  match aget room st.active_connections with
  | none => ⟨st, [], none⟩
  | some entries =>
    let r := broadcastGo msg exclude entries entries
    ⟨{ st with active_connections := aset room r.1 st.active_connections },
      r.2.1, r.2.2⟩

/-- WebSocketManager.broadcast_presence_update: copies the room presence
dict and broadcasts it with the default (None) exclude list. -/
def broadcast_presence_update (st : MState) (room : String) : Res :=
  let users := (aget room st.presence_data).getD []
  broadcast st room (.presenceUpdate users) none

/-- Sequencing that mirrors statement order inside a Python try block:
a raised exception skips the continuation. -/
def Res.andThen (r : Res) (f : MState → Res) : Res :=
  match r.err with
  | some _ => r
  | none =>
    let r2 := f r.st
    ⟨r2.st, r.sends ++ r2.sends, r2.err⟩

def MAX_CONNECTIONS_PER_ROOM : Nat := 50

def roomConns (st : MState) (room : String) : List (String × WS) :=
  (aget room st.active_connections).getD []

def setConn (st : MState) (room user : String) (ws : WS) : MState :=
  { st with
    active_connections := aset room (aset user ws (roomConns st room)) st.active_connections }

def popConn (st : MState) (room user : String) : MState :=
  match aget room st.active_connections with
  | none => st
  | some m =>
    { st with active_connections := aset room (adel user m) st.active_connections }

def roomPresence (st : MState) (room : String) : List (String × PresenceEntry) :=
  (aget room st.presence_data).getD []

def getPresence (st : MState) (room user : String) : Option PresenceEntry :=
  aget user (roomPresence st room)

def setPresence (st : MState) (room user : String) (p : PresenceEntry) : MState :=
  { st with
    presence_data := aset room (aset user p (roomPresence st room)) st.presence_data }

def popPresence (st : MState) (room user : String) : MState :=
  match aget room st.presence_data with
  | none => st
  | some m =>
    { st with presence_data := aset room (adel user m) st.presence_data }

def wsOf (st : MState) (room user : String) : Option WS :=
  aget user (roomConns st room)

/-- The error-path cleanup of connect: pop the registry entry, then the
presence entry, for the connecting user. -/
def connect_cleanup (st : MState) (room user : String) : MState :=
  popPresence (popConn st room user) room user

/-- Body of WebSocketManager.connect (the outer try block).
Order follows the source: early return on a disconnected client;
register the connection first; capacity check (counting the new entry)
whose rejection payload is an unserializable set; membership check with
an access_denied reply on failure, returning with the entry still
registered; session state snapshot (errors swallowed); presence online;
join broadcast excluding the joiner; aggregate presence broadcast with
the default exclude list. -/
def connect_body (env : ManagerEnv) (st : MState) (ws : WS)
    (room user : String) (now : Nat) : Res :=
  if ws.state = .disconnected then ⟨st, [], none⟩
  else
    let st1 := setConn st room user ws
    if MAX_CONNECTIONS_PER_ROOM ≤ (roomConns st1 room).length then
      let r := safe_send ws .placeholderSet
      ⟨st1, r.1, r.2⟩
    else if env.access user room then
      let ssend := safe_send ws .sessionState
      let st2 := setPresence st1 room user ⟨"online", now⟩
      let r := (broadcast st2 room (.presenceJoin (get_user_data env user))
                  (some [user])).andThen
        (fun s => broadcast_presence_update s room)
      ⟨r.st, ssend.1 ++ r.sends, r.err⟩
    else
      let r := safe_send ws (.accessDenied room)
      ⟨st1, r.1, r.2⟩

/-- WebSocketManager.connect: the try body plus the except handler that
pops the registry and presence entries and re-raises. -/
def connect (env : ManagerEnv) (st : MState) (ws : WS)
    (room user : String) (now : Nat) : Res :=
  let r := connect_body env st ws room user now
  match r.err with
  | none => r
  | some e => ⟨connect_cleanup r.st room user, r.sends, some e⟩

/-- WebSocketManager.disconnect: remove the registry entry, leave
broadcast with the default exclude list (errors swallowed by the inner
handler), presence set to offline if present, aggregate presence
broadcast (errors swallowed by the outer handler), and a finally block
that pops both entries.  Never raises. -/
def disconnect (env : ManagerEnv) (st : MState) (room user : String)
    (now : Nat) : Res :=
  let st1 := popConn st room user
  let rl := broadcast st1 room (.presenceLeave (get_user_data env user)) none
  let st2 :=
    if (getPresence rl.st room user).isSome then
      setPresence rl.st room user ⟨"offline", now⟩
    else rl.st
  let ru := broadcast_presence_update st2 room
  let stF := popPresence (popConn ru.st room user) room user
  ⟨stF, rl.sends ++ ru.sends, none⟩

/-- Drop leading whitespace characters. -/
def stripLeading : List Char → List Char
  | [] => []
  | c :: rest => if c.isWhitespace then stripLeading rest else c :: rest

/-- Python str.strip: remove leading and trailing whitespace. -/
def pyStrip (s : String) : String :=
  ⟨(stripLeading ((stripLeading s.data).reverse)).reverse⟩

/-- An attachment object: which of the required keys are present. -/
structure Attachment where
  hasName : Bool
  hasType : Bool
  hasUrl : Bool
deriving DecidableEq, Repr

/-- A decoded inbound envelope.  Optional fields model dict keys that
may be absent (direct indexing on an absent key raises KeyError). -/
structure InData where
  type_tag : String
  content : Option String
  message_id : Option String
  mentions : List String
  attachments : List Attachment
  is_typing : Bool
  limit : Nat
deriving DecidableEq, Repr

/-- _validate_attachment: name, type and url keys must all be present. -/
def validate_attachment (a : Attachment) : Bool :=
  a.hasName && a.hasType && a.hasUrl

/-- The global window reset: clear every counter once more than 60
seconds have passed since the last reset. -/
def resetIfStale (st : MState) (now : Nat) : MState :=
  if 60 < now - st.last_reset then { st with message_rates := [], last_reset := now } else st

def rateOf (st : MState) (user room : String) : Nat :=
  ((aget user st.message_rates).bind (fun m => aget room m)).getD 0

def bumpRate (st : MState) (user room : String) : MState :=
  let inner := (aget user st.message_rates).getD []
  { st with
    message_rates := aset user (aset room (rateOf st user room + 1) inner) st.message_rates }

/-- The except handler at the end of handle_chat_message: look the
sender connection up with .get and, when present, reply with a failure
notice (swallowing nothing that reply itself raises). -/
def chatExcept (st : MState) (room sender : String) : Res :=
  match wsOf st room sender with
  | some ws =>
    let r := safe_send ws (.errorText "Failed to send message")
    ⟨st, r.1, r.2⟩
  | none => ⟨st, [], none⟩

/-- The attachment validation loop: on the first invalid attachment,
reply and return only when the sender connection is present; with no
connection the loop simply continues (the return sits inside the
if ws block in the source). -/
def attachmentLoop (st : MState) (room sender : String) :
    List Attachment → Option Res
  | [] => none
  | a :: rest =>
    if validate_attachment a then attachmentLoop st room sender rest
    else
      match wsOf st room sender with
      | some ws =>
        let r := safe_send ws (.errorText "Invalid attachment")
        some ⟨st, r.1, r.2⟩
      | none => attachmentLoop st room sender rest

/-- WebSocketManager.handle_chat_message.  Validation order follows the
source: empty content (reply and return), oversized content (the return
sits inside the if ws block), mentions cap (the reply call passes a
literal Ellipsis as the websocket, raising AttributeError), attachment
check, then the try block: store the document and broadcast with the
default exclude list; any exception there is answered with a failure
reply to the sender. -/
def handle_chat_message (env : ManagerEnv) (st : MState) (d : InData)
    (room sender : String) : Res :=
  let content := pyStrip (d.content.getD "")
  if content = "" then
    match wsOf st room sender with
    | some ws =>
      let r := safe_send ws (.errorText "Message cannot be empty")
      ⟨st, r.1, r.2⟩
    | none => ⟨st, [], none⟩
  else
    let afterLen : Option Res :=
      if 2000 < content.length then
        match wsOf st room sender with
        | some ws =>
          let r := safe_send ws (.errorText "Message too long (max 2000 characters)")
          some ⟨st, r.1, r.2⟩
        | none => none
      else none
    match afterLen with
    | some r => r
    | none =>
      if d.mentions ≠ [] ∧ 10 < d.mentions.length then ⟨st, [], some .attrErr⟩
      else
        match attachmentLoop st room sender d.attachments with
        | some r => r
        | none =>
          match d.content with
          | none => chatExcept st room sender
          | some raw =>
            let mid := env.newMsgId
            let doc : StoredMsg := ⟨room, sender, raw, false, false, []⟩
            let st2 := { st with nosql_messages := aset mid doc st.nosql_messages }
            let rb := broadcast st2 room
              (.chatMsg mid (get_user_data env sender) raw) none
            match rb.err with
            | none => ⟨rb.st, rb.sends, none⟩
            | some _ =>
              let r2 := chatExcept rb.st room sender
              ⟨r2.st, rb.sends ++ r2.sends, r2.err⟩

/-- WebSocketManager.handle_edit_message: authorize by ownership; on a
missing message or a foreign sender, reply with an error through direct
indexing of the requester connection; otherwise mutate the stored
document and broadcast with the default exclude list. -/
def handle_edit_message (env : ManagerEnv) (st : MState) (d : InData)
    (room user : String) : Res :=
  match d.message_id with
  | none => ⟨st, [], some .keyErr⟩
  | some mid =>
    match d.content with
    | none => ⟨st, [], some .keyErr⟩
    | some newContent =>
      match aget mid st.nosql_messages with
      | none =>
        match wsOf st room user with
        | none => ⟨st, [], some .keyErr⟩
        | some ws =>
          let r := safe_send ws (.errorText "Cannot edit this message")
          ⟨st, r.1, r.2⟩
      | some m =>
        if m.sender_id ≠ user then
          match wsOf st room user with
          | none => ⟨st, [], some .keyErr⟩
          | some ws =>
            let r := safe_send ws (.errorText "Cannot edit this message")
            ⟨st, r.1, r.2⟩
        else
          let st2 := { st with
            nosql_messages := aset mid { m with content := newContent, edited := true } st.nosql_messages }
          broadcast st2 room (.msgEdited mid newContent (get_user_data env user)) none

/-- WebSocketManager.handle_delete_message: same authorization as edit;
on success soft-delete and broadcast with the default exclude list. -/
def handle_delete_message (env : ManagerEnv) (st : MState) (d : InData)
    (room user : String) : Res :=
  match d.message_id with
  | none => ⟨st, [], some .keyErr⟩
  | some mid =>
    match aget mid st.nosql_messages with
    | none =>
      match wsOf st room user with
      | none => ⟨st, [], some .keyErr⟩
      | some ws =>
        let r := safe_send ws (.errorText "Cannot delete this message")
        ⟨st, r.1, r.2⟩
    | some m =>
      if m.sender_id ≠ user then
        match wsOf st room user with
        | none => ⟨st, [], some .keyErr⟩
        | some ws =>
          let r := safe_send ws (.errorText "Cannot delete this message")
          ⟨st, r.1, r.2⟩
      else
        let st2 := { st with
          nosql_messages := aset mid { m with deleted := true } st.nosql_messages }
        broadcast st2 room (.msgDeleted mid (get_user_data env user)) none

/-- mark_as_read in the store: addToSet on the read_by list. -/
def markRead (st : MState) (mid user : String) : MState :=
  match aget mid st.nosql_messages with
  | none => st
  | some m =>
    if user ∈ m.read_by then st
    else { st with nosql_messages := aset mid { m with read_by := m.read_by ++ [user] } st.nosql_messages }

/-- WebSocketManager.handle_read_receipt: mark the message read, then
call get_user_data without its session argument, which raises TypeError
before the message_viewed broadcast. -/
def handle_read_receipt (st : MState) (d : InData) (user : String) : Res :=
  match d.message_id with
  | none => ⟨st, [], some .keyErr⟩
  | some mid => ⟨markRead st mid user, [], some .typeErr⟩

/-- WebSocketManager.handle_load_history: with an empty history page the
reply is sent directly to the requester; with a non-empty page the
enrichment loop calls get_user_data without its session argument,
raising TypeError. -/
def handle_load_history (env : ManagerEnv) (st : MState) (d : InData)
    (room user : String) : Res :=
  if env.history.isEmpty then
    match wsOf st room user with
    | none => ⟨st, [], some .keyErr⟩
    | some ws =>
      let r := safe_send ws (.msgHistory 0 (decide (0 = d.limit)))
      ⟨st, r.1, r.2⟩
  else ⟨st, [], some .typeErr⟩

/-- WebSocketManager.handle_typing_indicator: broadcast to the room
excluding the sender. -/
def handle_typing_indicator (env : ManagerEnv) (st : MState) (d : InData)
    (room sender : String) : Res :=
  broadcast st room (.userTyping sender (get_user_data env sender) d.is_typing)
    (some [sender])

/-- Result of handle_message: dispatched records whether a type branch
was taken after the rate limit check. -/
structure HRes where
  st : MState
  sends : List (Nat × OutMsg)
  dispatched : Bool
  err : Option PyErr
deriving DecidableEq, Repr

/-- WebSocketManager.handle_message: global window reset after 60
seconds, denial once the per (user, room) counter exceeds 30 (the
denial payload is an unserializable set literal), then increment and
dispatch on the type tag; unrecognized tags fall through. -/
def handle_message (env : ManagerEnv) (st0 : MState) (d : InData)
    (room user : String) (now : Nat) : HRes :=
  let st := resetIfStale st0 now
  if 30 < rateOf st user room then
    match wsOf st room user with
    | none => ⟨st, [], false, some .keyErr⟩
    | some ws =>
      let r := safe_send ws .placeholderSet
      ⟨st, r.1, false, r.2⟩
  else
    let st := bumpRate st user room
    if d.type_tag = "chat_message" then
      let r := handle_chat_message env st d room user
      ⟨r.st, r.sends, true, r.err⟩
    else if d.type_tag = "read_receipt" then
      let r := handle_read_receipt st d user
      ⟨r.st, r.sends, true, r.err⟩
    else if d.type_tag = "load_history" then
      let r := handle_load_history env st d room user
      ⟨r.st, r.sends, true, r.err⟩
    else if d.type_tag = "edit_message" then
      let r := handle_edit_message env st d room user
      ⟨r.st, r.sends, true, r.err⟩
    else if d.type_tag = "delete_message" then
      let r := handle_delete_message env st d room user
      ⟨r.st, r.sends, true, r.err⟩
    else if d.type_tag = "user_typing" then
      let r := handle_typing_indicator env st d room user
      ⟨r.st, r.sends, true, r.err⟩
    else ⟨st, [], false, none⟩

/-! ## Part 2: session finalization pipeline (arq_tasks.process_workroom_end_session) -/

/-- The three pipeline stages. -/
inductive StageEv
  | summarize
  | rank
  | aggregate
deriving DecidableEq, Repr

/-- Observable events of one job execution. -/
inductive PipeEv
  | stage (s : StageEv)
  | markEnded
  | enqueue (jobTry : Nat) (deferBy : Nat)
  | permanentFail
deriving DecidableEq, Repr

/-- The database rows the pipeline touches, reduced to the flags the
claims are about. -/
structure DBState where
  summaryUpserted : Bool
  leaderboardUpdated : Bool
  overviewUpserted : Bool
  sessionEnded : Bool
deriving DecidableEq, Repr

/-- A SQLAlchemy session over the database: committed state plus the
pending view of the open transaction. -/
structure DB where
  committed : DBState
  pending : DBState
deriving DecidableEq, Repr

def DB.begin (db : DB) : DB := ⟨db.committed, db.committed⟩

def DB.commit (db : DB) : DB := ⟨db.pending, db.pending⟩

def DB.rollback (db : DB) : DB := ⟨db.committed, db.committed⟩

/-- Outcomes of the stage calls (database / collaborator effects). -/
structure PipeEnv where
  stage1Err : Option PyErr
  stage2Err : Option PyErr
  stage3Err : Option PyErr
  sessionFound : Bool
deriving DecidableEq, Repr

/-- Result value of one job execution. -/
inductive TaskOutcome
  | returnedTrue
  | returnedFalse
  | returnedNone
  | raised (e : PyErr)
deriving DecidableEq, Repr

structure TaskRes where
  db : DB
  events : List PipeEv
  outcome : TaskOutcome
deriving DecidableEq, Repr

/-- Stage 1, generate_user_session_summary: upserts the per-user
summary and history point and then commits its own transaction
(service.py line 741). -/
def stage_summarize (env : PipeEnv) (db : DB) : DB × Option PyErr :=
  match env.stage1Err with
  | some e => (db, some e)
  | none => (DB.commit ⟨db.committed, { db.pending with summaryUpserted := true }⟩, none)

/-- Stage 2, update_workroom_leaderboard: mutates leaderboard rows but
does not commit (per its own docstring). -/
def stage_rank (env : PipeEnv) (db : DB) : DB × Option PyErr :=
  match env.stage2Err with
  | some e => (db, some e)
  | none => (⟨db.committed, { db.pending with leaderboardUpdated := true }⟩, none)

/-- Stage 3, calculate_workroom_kpi_overview: upserts the room KPI
summary rows and commits (service.py line 952).  Note: the task call
site (arq_tasks.py line 261) passes two arguments to this
three-parameter function (workroom_id, user_id, session), so in the
source as written every invocation of this stage raises TypeError at
the call; the environment keeps success as a possible outcome, a
superset of the real behavior covering the intended call. -/
def stage_aggregate (env : PipeEnv) (db : DB) : DB × Option PyErr :=
  match env.stage3Err with
  | some e => (db, some e)
  | none => (DB.commit ⟨db.committed, { db.pending with overviewUpserted := true }⟩, none)

/-- The except branch of the task: roll back, then either log permanent
failure (when the try count exceeds 3) or re-enqueue with a 60 second
delay and the try count incremented, and re-raise. -/
def pipelineExcept (db : DB) (evs : List PipeEv) (e : PyErr) (jobTry : Nat) : TaskRes :=
  let db2 := db.rollback
  if 3 < jobTry then ⟨db2, evs ++ [.permanentFail], .returnedNone⟩
  else ⟨db2, evs ++ [.enqueue (jobTry + 1) 60], .raised e⟩

/-- arq_tasks.process_workroom_end_session: begin a transaction, run
the three stages in order, then look the session up (returning False
when missing) and mark it ended and inactive before the final commit.
Any exception is handled by the retry branch. -/
def process_workroom_end_session (env : PipeEnv) (db0 : DB) (jobTry : Nat) : TaskRes :=
  let db := db0.begin
  let r1 := stage_summarize env db
  let evs1 := [PipeEv.stage .summarize]
  match r1.2 with
  | some e => pipelineExcept r1.1 evs1 e jobTry
  | none =>
    let r2 := stage_rank env r1.1
    let evs2 := evs1 ++ [PipeEv.stage .rank]
    match r2.2 with
    | some e => pipelineExcept r2.1 evs2 e jobTry
    | none =>
      let r3 := stage_aggregate env r2.1
      let evs3 := evs2 ++ [PipeEv.stage .aggregate]
      match r3.2 with
      | some e => pipelineExcept r3.1 evs3 e jobTry
      | none =>
        if env.sessionFound then
          let dbE := DB.commit ⟨(r3.1).committed, { (r3.1).pending with sessionEnded := true }⟩
          ⟨dbE, evs3 ++ [.markEnded], .returnedTrue⟩
        else ⟨r3.1, evs3, .returnedFalse⟩

/-- First enqueue event in an execution trace, if any. -/
def findEnqueue : List PipeEv → Option Nat
  | [] => none
  | .enqueue t _ :: _ => some t
  | _ :: rest => findEnqueue rest

/-- A chain of job executions linked by re-enqueue, with the stage
outcomes of each attempt indexed by its try count. -/
def runChain (envs : Nat → PipeEnv) (db : DB) : Nat → Nat → List PipeEv
  | 0, _ => []
  | fuel + 1, t =>
    let r := process_workroom_end_session (envs t) db t
    match findEnqueue r.events with
    | some t2 => r.events ++ runChain envs r.db fuel t2
    | none => r.events

def isEnqueue : PipeEv → Bool
  | .enqueue _ _ => true
  | _ => false

def countEnqueues (evs : List PipeEv) : Nat :=
  (evs.filter isEnqueue).length

/-! ## Part 3: leaderboard recomputation (workroom/service.update_workroom_leaderboard) -/

/-- A workroom member as read with its eager-loaded streak. -/
structure Member where
  id : String
  first_name : Option String
  daily_active_minutes : Option ℚ
  current_streak : Option ℚ
deriving DecidableEq, Repr

/-- Per-member results of the component database queries. -/
structure MemberStats where
  kpi_score : Option ℚ
  completed_task_points : ℚ
  total_assigned_tasks : Nat
  live_session_count : Nat
  missed_tasks : Nat
deriving DecidableEq, Repr

/-- One element of leaderboard_data. -/
structure LBEntry where
  user_id : String
  username : String
  score : ℚ
  kpi_score : ℚ
  task_score : ℚ
  engagement_score : ℚ
deriving DecidableEq, Repr

/-- The per-member score computation: KPI alignment (default 0), task
point ratio, engagement (2 per hosted live session, active minutes over
30, half the streak when present and nonzero), minus 2 per overdue
incomplete task, floored at 0. -/
def memberEntry (m : Member) (s : MemberStats) : LBEntry :=
  let username := m.first_name.getD "Unnamed User"
  let kpi := s.kpi_score.getD 0
  let task : ℚ :=
    if 0 < s.total_assigned_tasks then s.completed_task_points / s.total_assigned_tasks else 0
  let streak_bonus : ℚ :=
    match m.current_streak with
    | some c => if c ≠ 0 then c * (1 / 2) else 0
    | none => 0
  let engagement : ℚ :=
    (s.live_session_count : ℚ) * 2 + (m.daily_active_minutes.getD 0) / 30 + streak_bonus
  let penalty : ℚ := (s.missed_tasks : ℚ) * 2
  ⟨m.id, username, max 0 (kpi + task + engagement - penalty), kpi, task, engagement⟩

/-- leaderboard_data: one entry per member, skipping falsy ids. -/
def computeEntries (stats : String → MemberStats) : List Member → List LBEntry
  | [] => []
  | m :: rest =>
    if m.id = "" then computeEntries stats rest
    else memberEntry m (stats m.id) :: computeEntries stats rest

/-- The sort key ordering: score descending, lowercased username
ascending as tie-break. -/
def lbLe (a b : LBEntry) : Prop :=
  b.score < a.score ∨ (a.score = b.score ∧ a.username.toLower ≤ b.username.toLower)

instance : DecidableRel lbLe := fun a b =>
  inferInstanceAs (Decidable (b.score < a.score ∨ (a.score = b.score ∧ a.username.toLower ≤ b.username.toLower)))

instance : IsTotal LBEntry lbLe := by
  constructor
  intro a b
  unfold lbLe
  rcases lt_trichotomy a.score b.score with h | h | h
  · exact Or.inr (Or.inl h)
  · rcases le_total a.username.toLower b.username.toLower with h2 | h2
    · exact Or.inl (Or.inr ⟨h, h2⟩)
    · exact Or.inr (Or.inr ⟨h.symm, h2⟩)
  · exact Or.inl (Or.inl h)

instance : IsTrans LBEntry lbLe := by
  constructor
  intro a b c h1 h2
  unfold lbLe at h1 h2 ⊢
  rcases h1 with h1 | ⟨h1, h1s⟩ <;> rcases h2 with h2 | ⟨h2, h2s⟩
  · exact Or.inl (h2.trans h1)
  · exact Or.inl (h2 ▸ h1)
  · exact Or.inl (h1 ▸ h2)
  · exact Or.inr ⟨h1.trans h2, h1s.trans h2s⟩

/-- enumerate(..., start=1). -/
def enumRanks (l : List LBEntry) : List (Nat × LBEntry) :=
  l.enum.map (fun p => (p.1 + 1, p.2))

/-- One persisted Leaderboard row (the columns update_values sets). -/
structure LBRow where
  user_id : String
  score : ℚ
  rank : Nat
  kpi_score : ℚ
  task_score : ℚ
  engagement_score : ℚ
deriving DecidableEq, Repr

def rowOf (p : Nat × LBEntry) : LBRow :=
  ⟨p.2.user_id, p.2.score, p.1, p.2.kpi_score, p.2.task_score, p.2.engagement_score⟩

/-- The save loop body: skip falsy ids, update the existing row for the
user in place, or add a new row. -/
def upsertRow (table : List LBRow) (p : Nat × LBEntry) : List LBRow :=
  if p.2.user_id = "" then table
  else if table.any (fun r => r.user_id = p.2.user_id) then
    table.map (fun r => if r.user_id = p.2.user_id then rowOf p else r)
  else table ++ [rowOf p]

/-- update_workroom_leaderboard as a function of the fetched workroom,
members, query results and the existing leaderboard table.  A missing
workroom raises ValueError inside the fetch try block, whose handler
returns; an empty member list returns; otherwise entries are computed,
sorted by (score desc, lowercased name asc) and upserted with ranks
enumerated from 1.  The per-member and per-row try handlers in the
source (the zero-score fallback entry at service.py lines 254 to 263
and the swallowed save error at lines 303 to 305) fire only on
database faults; this pure model covers the executions in which every
component query and row write succeeds, the stats environment
supplying each query result. -/
def update_workroom_leaderboard (workroomFound : Bool) (members : List Member)
    (stats : String → MemberStats) (old : List LBRow) : List LBRow :=
  if ¬ workroomFound then old
  else if members.isEmpty then old
  else (enumRanks (List.insertionSort lbLe (computeEntries stats members))).foldl upsertRow old

/-! ## Concrete fixtures for executions of the embedded manager -/

def wsA : WS := ⟨1, .connected, .ok⟩

def wsB : WS := ⟨2, .connected, .ok⟩

def envGrant : ManagerEnv := ⟨fun _ _ => true, fun _ => true, fun _ => "user", [], "m1"⟩

def envDeny : ManagerEnv := ⟨fun _ _ => false, fun _ => true, fun _ => "user", [], "m1"⟩

def emptyMS : MState := ⟨[], [], [], 0, []⟩

def stAB : MState := ⟨[("r", [("a", wsA), ("b", wsB)])], [], [], 0, []⟩

def stA : MState := ⟨[("r", [("a", wsA)])], [], [], 0, []⟩

def chatHello : InData := ⟨"chat_message", some "hello", none, [], [], false, 50⟩

/-- Repeated delivery of the same envelope to handle_message, returning
the final state and how many of the n deliveries were dispatched. -/
def runMessages (env : ManagerEnv) (st : MState) (d : InData)
    (room user : String) (now : Nat) : Nat → MState × Nat
  | 0 => (st, 0)
  | n + 1 =>
    let r := runMessages env st d room user now n
    let h := handle_message env r.1 d room user now
    (h.st, r.2 + (if h.dispatched then 1 else 0))

/-- The stage events of a pipeline trace, in order. -/
def stagesOf (evs : List PipeEv) : List StageEv :=
  evs.filterMap (fun e => match e with | .stage s => some s | _ => none)

def dbFF : DBState := ⟨false, false, false, false⟩

def db0c : DB := ⟨dbFF, dbFF⟩

def envOkPipe : PipeEnv := ⟨none, none, none, true⟩

def envFailPipe : PipeEnv := ⟨some (.appErr "summary query failed"), none, none, true⟩

def envRankFail : PipeEnv := ⟨none, some (.appErr "leaderboard query failed"), none, true⟩

/-- Keys (user ids) of a ranked update list. -/
def keysOf (upds : List (Nat × LBEntry)) : List String :=
  upds.map (fun p => p.2.user_id)

/-- Keys of a leaderboard table. -/
def rowKeys (table : List LBRow) : List String :=
  table.map LBRow.user_id

/-- Rows whose key is outside a key set. -/
def notKeyed (ks : List String) (r : LBRow) : Bool :=
  !(decide (r.user_id ∈ ks))

def membersW : List Member :=
  [⟨"u1", some "alice", none, none⟩, ⟨"u2", some "bob", none, none⟩]

def statsW : String → MemberStats := fun _ => ⟨none, 0, 0, 0, 0⟩

/-- A leaderboard row left behind by a user who was later removed from
the workroom: removing a member deletes only the membership link, and
the save loop of update_workroom_leaderboard only updates or inserts
rows for current members, never deleting stale ones. -/
def staleRowW : LBRow := ⟨"u0", 5, 1, 0, 0, 0⟩

/-- C2.  The claimed invariant (online presence iff a registered
connection, between completed manager operations) fails on the code: a
connect call whose membership check fails registers the connection at
entry and returns without removing it, so afterwards the (room, user)
pair has a registered connection handle but no presence entry at all. -/
theorem C2_denied_connect_breaks_presence_invariant :
    (connect envDeny emptyMS wsA "r" "u" 0).err = none ∧
    wsOf (connect envDeny emptyMS wsA "r" "u" 0).st "r" "u" = some wsA ∧
    getPresence (connect envDeny emptyMS wsA "r" "u" 0).st "r" "u" = none := by
  decide

/-- C5.  A connect whose membership check fails does send access_denied
and return, but the connection registered at the top of connect is left
in the connection map, contradicting the claim that the map contains no
entry for that pair afterwards. -/
theorem C5_denied_connect_leaves_registration :
    (connect envDeny emptyMS wsA "r" "u" 0).sends = [(1, OutMsg.accessDenied "r")] ∧
    (connect envDeny emptyMS wsA "r" "u" 0).err = none ∧
    aget "u" (roomConns (connect envDeny emptyMS wsA "r" "u" 0).st "r") = some wsA := by
  decide

/-- C4.  With members a and b connected in room r, a valid, non
rate-limited chat message from a is dispatched, but the broadcast uses
the default None exclude list and raises TypeError at its first
iteration, so b receives nothing; the exception handler instead sends a
failure notice back to a. -/
theorem C4_chat_broadcast_never_reaches_b :
    (handle_message envGrant stAB chatHello "r" "a" 0).dispatched = true ∧
    (handle_message envGrant stAB chatHello "r" "a" 0).sends
      = [(1, OutMsg.errorText "Failed to send message")] ∧
    ((handle_message envGrant stAB chatHello "r" "a" 0).sends.all
      (fun p => p.1 ≠ 2)) = true := by
  decide

/-- C3.  The rate limiter checks the counter strictly above 30 before
incrementing, so in one window the first 31 messages are dispatched,
not 30 as claimed; the 32nd is the first one denied, and its denial
reply is an unserializable set literal, so the sender receives no
rate-limit error envelope either. -/
theorem C3_thirty_first_message_still_accepted :
    (runMessages envGrant stA chatHello "r" "a" 0 31).2 = 31 ∧
    (handle_message envGrant (runMessages envGrant stA chatHello "r" "a" 0 31).1
        chatHello "r" "a" 0).dispatched = false ∧
    (handle_message envGrant (runMessages envGrant stA chatHello "r" "a" 0 31).1
        chatHello "r" "a" 0).sends = [] ∧
    (handle_message envGrant (runMessages envGrant stA chatHello "r" "a" 0 31).1
        chatHello "r" "a" 0).err = some PyErr.typeErr := by
  decide

/-! ## Rate counter lemmas -/

theorem aget_aset (k : String) (v : α) :
    ∀ l : List (String × α), aget k (aset k v l) = some v := by
  intro l
  induction l with
  | nil => simp [aget, aset]
  | cons hd tl ih =>
    by_cases h : hd.1 = k
    · simp [aget, aset, h]
    · simp [aget, aset, h, ih]

theorem rateOf_congr {st1 st2 : MState} (u r : String)
    (h : st1.message_rates = st2.message_rates) : rateOf st1 u r = rateOf st2 u r := by
  unfold rateOf
  rw [h]

theorem bumpRate_rateOf (st : MState) (u r : String) :
    rateOf (bumpRate st u r) u r = rateOf st u r + 1 := by
  unfold bumpRate rateOf
  simp [aget_aset]

theorem broadcast_rates (st : MState) (room : String) (m : OutMsg)
    (ex : Option (List String)) :
    (broadcast st room m ex).st.message_rates = st.message_rates := by
  unfold broadcast
  cases aget room st.active_connections <;> simp

theorem broadcast_presence_update_rates (st : MState) (room : String) :
    (broadcast_presence_update st room).st.message_rates = st.message_rates := by
  unfold broadcast_presence_update
  exact broadcast_rates ..

theorem chatExcept_st (st : MState) (room sender : String) :
    (chatExcept st room sender).st = st := by
  unfold chatExcept
  cases wsOf st room sender <;> simp

theorem attachmentLoop_st (st : MState) (room sender : String) :
    ∀ l r, attachmentLoop st room sender l = some r → r.st = st := by
  intro l
  induction l with
  | nil => intro r h; simp [attachmentLoop] at h
  | cons a rest ih =>
    intro r h
    unfold attachmentLoop at h
    by_cases hv : validate_attachment a = true
    · rw [if_pos hv] at h
      exact ih r h
    · rw [if_neg hv] at h
      cases hws : wsOf st room sender with
      | none => rw [hws] at h; exact ih r h
      | some ws =>
        rw [hws] at h
        cases h
        rfl

theorem handle_chat_message_rates (env : ManagerEnv) (st : MState) (d : InData)
    (room sender : String) :
    (handle_chat_message env st d room sender).st.message_rates = st.message_rates := by
  simp only [handle_chat_message]
  split
  · split <;> rfl
  · split
    · rename_i r hr
      split at hr
      · split at hr <;> simp_all
        subst hr
        rfl
      · simp_all
    · split
      · rfl
      · split
        · rename_i r hr
          rw [attachmentLoop_st st room sender _ r hr]
        · split
          · rw [chatExcept_st]
          · split
            · rw [broadcast_rates]
            · rw [chatExcept_st, broadcast_rates]

theorem handle_edit_message_rates (env : ManagerEnv) (st : MState) (d : InData)
    (room user : String) :
    (handle_edit_message env st d room user).st.message_rates = st.message_rates := by
  unfold handle_edit_message
  split
  · rfl
  · split
    · rfl
    · split
      · split <;> rfl
      · split
        · split <;> rfl
        · exact broadcast_rates ..

theorem handle_delete_message_rates (env : ManagerEnv) (st : MState) (d : InData)
    (room user : String) :
    (handle_delete_message env st d room user).st.message_rates = st.message_rates := by
  unfold handle_delete_message
  split
  · rfl
  · split
    · split <;> rfl
    · split
      · split <;> rfl
      · exact broadcast_rates ..

theorem markRead_rates (st : MState) (mid user : String) :
    (markRead st mid user).message_rates = st.message_rates := by
  unfold markRead
  split
  · rfl
  · split <;> rfl

theorem handle_read_receipt_rates (st : MState) (d : InData) (user : String) :
    (handle_read_receipt st d user).st.message_rates = st.message_rates := by
  unfold handle_read_receipt
  split
  · rfl
  · exact markRead_rates ..

theorem handle_load_history_rates (env : ManagerEnv) (st : MState) (d : InData)
    (room user : String) :
    (handle_load_history env st d room user).st.message_rates = st.message_rates := by
  unfold handle_load_history
  split
  · split <;> rfl
  · rfl

theorem handle_typing_indicator_rates (env : ManagerEnv) (st : MState) (d : InData)
    (room sender : String) :
    (handle_typing_indicator env st d room sender).st.message_rates = st.message_rates := by
  unfold handle_typing_indicator
  exact broadcast_rates ..

/-- C10.  Every envelope that passes the rate limit check increments
the sender's per (user, room) counter by exactly one before type
dispatch, whatever the type tag is: unknown tags and messages later
rejected by content validation still consume quota. -/
theorem C10_quota_consumed_regardless_of_tag (env : ManagerEnv) (st : MState)
    (d : InData) (room user : String) (now : Nat)
    (h : rateOf (resetIfStale st now) user room ≤ 30) :
    rateOf (handle_message env st d room user now).st user room
      = rateOf (resetIfStale st now) user room + 1 := by
  unfold handle_message
  rw [if_neg (by omega)]
  have hb := bumpRate_rateOf (resetIfStale st now) user room
  split
  · rw [rateOf_congr user room (handle_chat_message_rates ..), hb]
  · split
    · rw [rateOf_congr user room (handle_read_receipt_rates ..), hb]
    · split
      · rw [rateOf_congr user room (handle_load_history_rates ..), hb]
      · split
        · rw [rateOf_congr user room (handle_edit_message_rates ..), hb]
        · split
          · rw [rateOf_congr user room (handle_delete_message_rates ..), hb]
          · split
            · rw [rateOf_congr user room (handle_typing_indicator_rates ..), hb]
            · exact hb

/-- Witness for C10: a fresh user in room r has counter 0, and after an
envelope with an unrecognized tag the counter is 1. -/
theorem C10_quota_consumed_regardless_of_tag_witness :
    rateOf (resetIfStale stA 0) "a" "r" ≤ 30 ∧
    rateOf (handle_message envGrant stA ⟨"bogus_tag", none, none, [], [], false, 50⟩ "r" "a" 0).st "a" "r"
      = rateOf (resetIfStale stA 0) "a" "r" + 1 :=
  ⟨by decide,
   C10_quota_consumed_regardless_of_tag envGrant stA ⟨"bogus_tag", none, none, [], [], false, 50⟩ "r" "a" 0 (by decide)⟩

/-- C8.  An edit_message or delete_message request whose requester is
not the stored sender, or whose message id is not in the store, leaves
the manager state (including the stored messages) unchanged and sends
exactly one error reply to the requester connection, with no broadcast
to the room. -/
theorem C8_non_owner_edit_delete_rejected (env : ManagerEnv) (st : MState)
    (d : InData) (room user mid c : String) (ws : WS)
    (hmid : d.message_id = some mid) (hc : d.content = some c)
    (hws : wsOf st room user = some ws)
    (hconn : ws.state = .connected) (hok : ws.send = .ok)
    (hauth : ∀ m, aget mid st.nosql_messages = some m → m.sender_id ≠ user) :
    (handle_edit_message env st d room user).st = st ∧
    (handle_edit_message env st d room user).sends
      = [(ws.id, OutMsg.errorText "Cannot edit this message")] ∧
    (handle_delete_message env st d room user).st = st ∧
    (handle_delete_message env st d room user).sends
      = [(ws.id, OutMsg.errorText "Cannot delete this message")] := by
  have hse : ∀ s : String,
      safe_send ws (OutMsg.errorText s) = ([(ws.id, OutMsg.errorText s)], none) := by
    intro s
    simp [safe_send, hconn, hok, serializable]
  have hedit : handle_edit_message env st d room user
      = ⟨st, [(ws.id, OutMsg.errorText "Cannot edit this message")], none⟩ := by
    simp only [handle_edit_message, hmid, hc]
    cases hm : aget mid st.nosql_messages with
    | none => simp [hws, hse]
    | some m => simp [hws, hse, hauth m hm]
  have hdel : handle_delete_message env st d room user
      = ⟨st, [(ws.id, OutMsg.errorText "Cannot delete this message")], none⟩ := by
    simp only [handle_delete_message, hmid]
    cases hm : aget mid st.nosql_messages with
    | none => simp [hws, hse]
    | some m => simp [hws, hse, hauth m hm]
  rw [hedit, hdel]
  exact ⟨rfl, rfl, rfl, rfl⟩

/-- Witness for C8: a stored message owned by user x, requested for
edit and delete by user u over a live connection. -/
theorem C8_non_owner_edit_delete_rejected_witness :
    (∀ m, aget "m1" ([("m1", ⟨"r", "x", "hi", false, false, []⟩)] : List (String × StoredMsg)) = some m → m.sender_id ≠ "u") ∧
    ((handle_edit_message envGrant ⟨[("r", [("u", wsA)])], [], [], 0, [("m1", ⟨"r", "x", "hi", false, false, []⟩)]⟩
        ⟨"edit_message", some "new", some "m1", [], [], false, 50⟩ "r" "u").st
      = ⟨[("r", [("u", wsA)])], [], [], 0, [("m1", ⟨"r", "x", "hi", false, false, []⟩)]⟩ ∧
     (handle_edit_message envGrant ⟨[("r", [("u", wsA)])], [], [], 0, [("m1", ⟨"r", "x", "hi", false, false, []⟩)]⟩
        ⟨"edit_message", some "new", some "m1", [], [], false, 50⟩ "r" "u").sends
      = [(1, OutMsg.errorText "Cannot edit this message")] ∧
     (handle_delete_message envGrant ⟨[("r", [("u", wsA)])], [], [], 0, [("m1", ⟨"r", "x", "hi", false, false, []⟩)]⟩
        ⟨"edit_message", some "new", some "m1", [], [], false, 50⟩ "r" "u").st
      = ⟨[("r", [("u", wsA)])], [], [], 0, [("m1", ⟨"r", "x", "hi", false, false, []⟩)]⟩ ∧
     (handle_delete_message envGrant ⟨[("r", [("u", wsA)])], [], [], 0, [("m1", ⟨"r", "x", "hi", false, false, []⟩)]⟩
        ⟨"edit_message", some "new", some "m1", [], [], false, 50⟩ "r" "u").sends
      = [(1, OutMsg.errorText "Cannot delete this message")]) :=
  ⟨by decide,
   C8_non_owner_edit_delete_rejected envGrant
     ⟨[("r", [("u", wsA)])], [], [], 0, [("m1", ⟨"r", "x", "hi", false, false, []⟩)]⟩
     ⟨"edit_message", some "new", some "m1", [], [], false, 50⟩ "r" "u" "m1" "new" wsA
     rfl rfl (by decide) rfl rfl (by decide)⟩

/-! ## Pipeline theorems -/

/-- C1.  In every execution of the finalization job the stage events
form one of the ordered traces Summarize; Summarize, Rank; or
Summarize, Rank, Aggregate, and the session record is marked ended and
inactive only when all three stages ran without an error outcome (and
the session row was found). -/
theorem C1_stage_order_and_completion_gate (env : PipeEnv) (db0 : DB) (t : Nat) :
    (stagesOf (process_workroom_end_session env db0 t).events = [.summarize] ∨
     stagesOf (process_workroom_end_session env db0 t).events = [.summarize, .rank] ∨
     stagesOf (process_workroom_end_session env db0 t).events = [.summarize, .rank, .aggregate]) ∧
    (PipeEv.markEnded ∈ (process_workroom_end_session env db0 t).events →
      env.stage1Err = none ∧ env.stage2Err = none ∧ env.stage3Err = none ∧
      env.sessionFound = true) ∧
    ((process_workroom_end_session env db0 t).db.committed.sessionEnded = true →
      db0.committed.sessionEnded = true ∨
      (env.stage1Err = none ∧ env.stage2Err = none ∧ env.stage3Err = none ∧
       env.sessionFound = true)) := by
  rcases env with ⟨e1, e2, e3, sf⟩
  by_cases ht : 3 < t <;>
    cases e1 <;> cases e2 <;> cases e3 <;> cases sf <;>
    simp [process_workroom_end_session, stage_summarize, stage_rank, stage_aggregate,
      pipelineExcept, stagesOf, DB.begin, DB.commit, DB.rollback, ht]

/-- Witness for C1: with every stage succeeding and the session found,
the ended mark is written and the gate condition holds. -/
theorem C1_stage_order_and_completion_gate_witness :
    PipeEv.markEnded ∈ (process_workroom_end_session envOkPipe db0c 0).events ∧
    (envOkPipe.stage1Err = none ∧ envOkPipe.stage2Err = none ∧
     envOkPipe.stage3Err = none ∧ envOkPipe.sessionFound = true) :=
  ⟨by decide, (C1_stage_order_and_completion_gate envOkPipe db0c 0).2.1 (by decide)⟩

theorem enqueue_mem_run (env : PipeEnv) (db : DB) (t t2 d : Nat)
    (h : PipeEv.enqueue t2 d ∈ (process_workroom_end_session env db t).events) :
    d = 60 ∧ t2 = t + 1 ∧ t ≤ 3 := by
  rcases env with ⟨e1, e2, e3, sf⟩
  by_cases ht : 3 < t <;>
    cases e1 <;> cases e2 <;> cases e3 <;> cases sf <;>
    simp [process_workroom_end_session, stage_summarize, stage_rank, stage_aggregate,
      pipelineExcept, ht] at h <;>
    omega

theorem permanentFail_mem_run (env : PipeEnv) (db : DB) (t : Nat)
    (h : PipeEv.permanentFail ∈ (process_workroom_end_session env db t).events) :
    3 < t := by
  rcases env with ⟨e1, e2, e3, sf⟩
  by_cases ht : 3 < t <;>
    cases e1 <;> cases e2 <;> cases e3 <;> cases sf <;>
    simp [process_workroom_end_session, stage_summarize, stage_rank, stage_aggregate,
      pipelineExcept, ht] at h <;>
    omega

theorem countEnqueues_run (env : PipeEnv) (db : DB) (t : Nat) :
    countEnqueues (process_workroom_end_session env db t).events ≤ 1 := by
  rcases env with ⟨e1, e2, e3, sf⟩
  by_cases ht : 3 < t <;>
    cases e1 <;> cases e2 <;> cases e3 <;> cases sf <;>
    simp [process_workroom_end_session, stage_summarize, stage_rank, stage_aggregate,
      pipelineExcept, countEnqueues, isEnqueue, ht]

theorem findEnqueue_run (env : PipeEnv) (db : DB) (t : Nat) :
    findEnqueue (process_workroom_end_session env db t).events = none ∨
    (findEnqueue (process_workroom_end_session env db t).events = some (t + 1) ∧ t ≤ 3 ∧
      PipeEv.enqueue (t + 1) 60 ∈ (process_workroom_end_session env db t).events) := by
  rcases env with ⟨e1, e2, e3, sf⟩
  by_cases ht : 3 < t <;>
    cases e1 <;> cases e2 <;> cases e3 <;> cases sf <;>
    simp [process_workroom_end_session, stage_summarize, stage_rank, stage_aggregate,
      pipelineExcept, findEnqueue, ht] <;>
    omega

theorem countEnqueues_append (l1 l2 : List PipeEv) :
    countEnqueues (l1 ++ l2) = countEnqueues l1 + countEnqueues l2 := by
  simp [countEnqueues, List.filter_append]

theorem findEnqueue_none_no_mem :
    ∀ evs : List PipeEv, findEnqueue evs = none → ∀ t d, PipeEv.enqueue t d ∉ evs := by
  intro evs
  induction evs with
  | nil => intro _ t d; simp
  | cons e rest ih =>
    intro h t d
    cases e with
    | enqueue a b => simp [findEnqueue] at h
    | stage s => simp [ih h t d]
    | markEnded => simp [ih h t d]
    | permanentFail => simp [ih h t d]

theorem countEnqueues_zero (evs : List PipeEv)
    (h : ∀ t d, PipeEv.enqueue t d ∉ evs) : countEnqueues evs = 0 := by
  unfold countEnqueues
  rw [List.length_eq_zero, List.filter_eq_nil_iff]
  intro e he
  cases e with
  | enqueue a b => exact absurd he (h a b)
  | stage s => simp [isEnqueue]
  | markEnded => simp [isEnqueue]
  | permanentFail => simp [isEnqueue]

theorem runChain_bounds (envs : Nat → PipeEnv) : ∀ (fuel : Nat) (db : DB) (t : Nat),
    countEnqueues (runChain envs db fuel t) ≤ 4 - t ∧
    (∀ t2 d, PipeEv.enqueue t2 d ∈ runChain envs db fuel t → d = 60 ∧ t < t2 ∧ t2 ≤ 4) ∧
    (PipeEv.permanentFail ∈ runChain envs db fuel t →
      3 < t ∨ PipeEv.enqueue 4 60 ∈ runChain envs db fuel t) := by
  intro fuel
  induction fuel with
  | zero =>
    intro db t
    refine ⟨by simp [runChain, countEnqueues], ?_, ?_⟩ <;> simp [runChain]
  | succ n ih =>
    intro db t
    have hrw : runChain envs db (n + 1) t =
        (match findEnqueue (process_workroom_end_session (envs t) db t).events with
         | some t2 => (process_workroom_end_session (envs t) db t).events ++
             runChain envs (process_workroom_end_session (envs t) db t).db n t2
         | none => (process_workroom_end_session (envs t) db t).events) := rfl
    rcases findEnqueue_run (envs t) db t with hf | ⟨hf, hle, hmem⟩
    · rw [hrw, hf]
      refine ⟨?_, ?_, ?_⟩
      · rw [countEnqueues_zero _ (findEnqueue_none_no_mem _ hf)]
        exact Nat.zero_le _
      · intro t2 d hmem2
        exact absurd hmem2 (findEnqueue_none_no_mem _ hf t2 d)
      · intro hp
        exact Or.inl (permanentFail_mem_run (envs t) db t hp)
    · rw [hrw, hf]
      obtain ⟨ihc, ihm, ihp⟩ := ih (process_workroom_end_session (envs t) db t).db (t + 1)
      refine ⟨?_, ?_, ?_⟩
      · rw [countEnqueues_append]
        have h1 := countEnqueues_run (envs t) db t
        omega
      · intro t2 d hmem2
        rcases List.mem_append.mp hmem2 with hin | hin
        · obtain ⟨hd, ht2, ht3⟩ := enqueue_mem_run (envs t) db t t2 d hin
          omega
        · obtain ⟨hd, ht2, ht3⟩ := ihm t2 d hin
          exact ⟨hd, by omega, ht3⟩
      · intro hp
        rcases List.mem_append.mp hp with hin | hin
        · exact Or.inl (permanentFail_mem_run (envs t) db t hin)
        · rcases ihp hin with h4 | h4
          · have ht3 : t = 3 := by omega
            subst ht3
            exact Or.inr (List.mem_append.mpr (Or.inl hmem))
          · exact Or.inr (List.mem_append.mpr (Or.inr h4))

/-- C6 counterexample.  With every attempt failing in stage 1, a job
chain starting at try count 0 is re-enqueued four times (tries 1, 2, 3
and 4), not at most three, and the try count reaches 4 before the
permanent failure is declared: the retry guard re-enqueues whenever the
incoming try count is at most 3. -/
theorem C6_counterexample_four_reenqueues :
    countEnqueues (runChain (fun _ => envFailPipe) db0c 6 0) = 4 ∧
    PipeEv.enqueue 4 60 ∈ runChain (fun _ => envFailPipe) db0c 6 0 ∧
    PipeEv.permanentFail ∈ runChain (fun _ => envFailPipe) db0c 6 0 := by
  decide

/-- C6 amended.  Every failed attempt is re-enqueued with a 60 second
delay and the try count incremented by one, a chain starting at try 0
is re-enqueued at most 4 times with every enqueued try count at most 4,
and permanent failure is declared only after an enqueue with try count
4 (that is, only once the try count has exceeded 3). -/
theorem C6_amended_retry_bounds (envs : Nat → PipeEnv) (db : DB) (fuel : Nat) :
    countEnqueues (runChain envs db fuel 0) ≤ 4 ∧
    (∀ t2 d, PipeEv.enqueue t2 d ∈ runChain envs db fuel 0 → d = 60 ∧ t2 ≤ 4) ∧
    (PipeEv.permanentFail ∈ runChain envs db fuel 0 →
      PipeEv.enqueue 4 60 ∈ runChain envs db fuel 0) := by
  obtain ⟨hc, hm, hp⟩ := runChain_bounds envs fuel db 0
  refine ⟨by omega, ?_, ?_⟩
  · intro t2 d h
    obtain ⟨hd, _, ht⟩ := hm t2 d h
    exact ⟨hd, ht⟩
  · intro h
    rcases hp h with h4 | h4
    · omega
    · exact h4

/-- C7.  When stage 1 succeeds and stage 2 throws, the summary upsert
persists (stage 1 commits its own transaction), the session is not
marked ended, and the job is re-enqueued with the try count incremented
by exactly one. -/
theorem C7_stage2_failure_summary_persists (env : PipeEnv) (db0 : DB) (t : Nat)
    (e : PyErr) (h1 : env.stage1Err = none) (h2 : env.stage2Err = some e)
    (ht : t ≤ 3) :
    (process_workroom_end_session env db0 t).db.committed.summaryUpserted = true ∧
    (process_workroom_end_session env db0 t).db.committed.sessionEnded
      = db0.committed.sessionEnded ∧
    (process_workroom_end_session env db0 t).db.pending.sessionEnded
      = db0.committed.sessionEnded ∧
    (process_workroom_end_session env db0 t).events
      = [PipeEv.stage .summarize, PipeEv.stage .rank, PipeEv.enqueue (t + 1) 60] ∧
    (process_workroom_end_session env db0 t).outcome = .raised e := by
  rcases env with ⟨e1, e2, e3, sf⟩
  cases h1
  cases h2
  simp [process_workroom_end_session, stage_summarize, stage_rank, pipelineExcept,
    DB.begin, DB.commit, DB.rollback, Nat.not_lt.mpr ht]

/-- Witness for C7: a concrete failing-rank attempt at try count 0. -/
theorem C7_stage2_failure_summary_persists_witness :
    (envRankFail.stage1Err = none ∧ envRankFail.stage2Err = some (.appErr "leaderboard query failed") ∧ 0 ≤ 3) ∧
    ((process_workroom_end_session envRankFail db0c 0).db.committed.summaryUpserted = true ∧
     (process_workroom_end_session envRankFail db0c 0).db.committed.sessionEnded
       = db0c.committed.sessionEnded ∧
     (process_workroom_end_session envRankFail db0c 0).db.pending.sessionEnded
       = db0c.committed.sessionEnded ∧
     (process_workroom_end_session envRankFail db0c 0).events
       = [PipeEv.stage .summarize, PipeEv.stage .rank, PipeEv.enqueue 1 60] ∧
     (process_workroom_end_session envRankFail db0c 0).outcome
       = .raised (.appErr "leaderboard query failed")) :=
  ⟨⟨rfl, rfl, by omega⟩,
   C7_stage2_failure_summary_persists envRankFail db0c 0
     (.appErr "leaderboard query failed") rfl rfl (by omega)⟩

/-! ## Leaderboard persistence lemmas -/

theorem map_replace_of_no_key (k : String) (v : LBRow) :
    ∀ table : List LBRow, (∀ r ∈ table, r.user_id ≠ k) →
      table.map (fun r => if r.user_id = k then v else r) = table := by
  intro table
  induction table with
  | nil => intro _; rfl
  | cons r rest ih =>
    intro h
    simp only [List.map_cons]
    rw [if_neg (h r (List.mem_cons_self r rest)), ih (fun r2 hr2 => h r2 (List.mem_cons_of_mem r hr2))]

theorem filter_drop_absent_key (k : String) (ks : List String) :
    ∀ table : List LBRow, (∀ r ∈ table, r.user_id ≠ k) →
      table.filter (notKeyed (k :: ks)) = table.filter (notKeyed ks) := by
  intro table
  induction table with
  | nil => intro _; rfl
  | cons r rest ih =>
    intro h
    have hr : r.user_id ≠ k := h r (List.mem_cons_self r rest)
    have htl := ih (fun r2 hr2 => h r2 (List.mem_cons_of_mem r hr2))
    by_cases hin : r.user_id ∈ ks
    · rw [List.filter_cons_of_neg, List.filter_cons_of_neg, htl] <;>
        simp [notKeyed, hin]
    · rw [List.filter_cons_of_pos, List.filter_cons_of_pos, htl] <;>
        simp [notKeyed, hin, hr]

theorem replaced_filter_perm (k : String) (v : LBRow) (ks : List String)
    (hv : v.user_id = k) (hks : k ∉ ks) :
    ∀ table : List LBRow, (rowKeys table).Nodup →
      table.any (fun r => r.user_id = k) = true →
      ((table.map (fun r => if r.user_id = k then v else r)).filter (notKeyed ks)).Perm
        (table.filter (notKeyed (k :: ks)) ++ [v]) := by
  intro table
  induction table with
  | nil => intro _ h; simp at h
  | cons r rest ih =>
    intro hnd hany
    have hndr : (rowKeys rest).Nodup := (List.nodup_cons.mp hnd).2
    by_cases hr : r.user_id = k
    · have hnone : ∀ r2 ∈ rest, r2.user_id ≠ k := by
        intro r2 hr2 hk2
        exact (List.nodup_cons.mp hnd).1 (hr ▸ hk2 ▸ List.mem_map_of_mem LBRow.user_id hr2)
      rw [List.map_cons, if_pos hr, map_replace_of_no_key k v rest hnone]
      rw [List.filter_cons_of_pos (by simp [notKeyed, hv, hks])]
      rw [List.filter_cons_of_neg (by simp [notKeyed, hr])]
      rw [filter_drop_absent_key k ks rest hnone]
      exact (List.perm_append_singleton v (rest.filter (notKeyed ks))).symm
    · have hany2 : rest.any (fun r2 => r2.user_id = k) = true := by
        rcases List.any_eq_true.mp hany with ⟨r2, hr2, hk2⟩
        rcases List.mem_cons.mp hr2 with h | h
        · exact absurd (h ▸ of_decide_eq_true hk2) hr
        · exact List.any_eq_true.mpr ⟨r2, h, hk2⟩
      have htl := ih hndr hany2
      rw [List.map_cons, if_neg hr]
      by_cases hin : r.user_id ∈ ks
      · rw [List.filter_cons_of_neg (by simp [notKeyed, hin]),
          List.filter_cons_of_neg (by simp [notKeyed, hin])]
        exact htl
      · rw [List.filter_cons_of_pos (by simp [notKeyed, hin]),
          List.filter_cons_of_pos (by simp [notKeyed, hin, hr])]
        exact (htl.cons r).trans (List.Perm.refl _) |>.trans (by rw [List.cons_append])

theorem rowKeys_map_replace (k : String) (v : LBRow) (hv : v.user_id = k) :
    ∀ table : List LBRow,
      rowKeys (table.map (fun r => if r.user_id = k then v else r)) = rowKeys table := by
  intro table
  induction table with
  | nil => rfl
  | cons r rest ih =>
    simp only [List.map_cons, rowKeys] at *
    by_cases hr : r.user_id = k
    · rw [if_pos hr, hv, hr, ih]
    · rw [if_neg hr, ih]

theorem foldl_upsert_perm :
    ∀ (upds : List (Nat × LBEntry)) (old : List LBRow),
      (keysOf upds).Nodup → (∀ p ∈ upds, p.2.user_id ≠ "") →
      (rowKeys old).Nodup →
      (upds.foldl upsertRow old).Perm
        (old.filter (notKeyed (keysOf upds)) ++ upds.map rowOf) := by
  intro upds
  induction upds with
  | nil =>
    intro old _ _ _
    rw [List.foldl_nil, List.map_nil, List.append_nil,
      List.filter_eq_self.mpr (fun r _ => by simp [notKeyed, keysOf])]
  | cons p rest ih =>
    intro old hnodup hne hold
    have hk : p.2.user_id ≠ "" := hne p (List.mem_cons_self p rest)
    have hkeys : keysOf (p :: rest) = p.2.user_id :: keysOf rest := rfl
    rw [hkeys] at hnodup ⊢
    obtain ⟨hknotin, hndrest⟩ := List.nodup_cons.mp hnodup
    have hnerest : ∀ q ∈ rest, q.2.user_id ≠ "" :=
      fun q hq => hne q (List.mem_cons_of_mem p hq)
    rw [List.foldl_cons]
    by_cases hany : old.any (fun r => r.user_id = p.2.user_id) = true
    · have hup : upsertRow old p
          = old.map (fun r => if r.user_id = p.2.user_id then rowOf p else r) := by
        unfold upsertRow
        rw [if_neg (by simp [hk]), if_pos hany]
      rw [hup]
      have hold2 : (rowKeys (old.map
          (fun r => if r.user_id = p.2.user_id then rowOf p else r))).Nodup := by
        rw [rowKeys_map_replace p.2.user_id (rowOf p) rfl old]
        exact hold
      have h1 := ih _ hndrest hnerest hold2
      have h2 := replaced_filter_perm p.2.user_id (rowOf p) (keysOf rest) rfl
        hknotin old hold hany
      refine h1.trans ?_
      refine (h2.append_right (rest.map rowOf)).trans ?_
      rw [List.append_assoc]
      exact List.Perm.refl _
    · have hnone : ∀ r ∈ old, r.user_id ≠ p.2.user_id := by
        intro r hr hcontra
        exact hany (List.any_eq_true.mpr ⟨r, hr, decide_eq_true hcontra⟩)
      have hup : upsertRow old p = old ++ [rowOf p] := by
        unfold upsertRow
        rw [if_neg (by simp [hk]), if_neg hany]
      rw [hup]
      have hold2 : (rowKeys (old ++ [rowOf p])).Nodup := by
        unfold rowKeys
        rw [List.map_append]
        refine List.Nodup.append hold (by simp) ?_
        intro a ha hb
        simp only [List.map_cons, List.map_nil, List.mem_singleton] at hb
        rcases List.mem_map.mp ha with ⟨r, hr, hra⟩
        apply hnone r hr
        rw [hra, hb]
        rfl
      have h1 := ih _ hndrest hnerest hold2
      refine h1.trans ?_
      rw [List.filter_append]
      rw [List.filter_cons_of_pos (by simp [notKeyed, rowOf, hknotin]), List.filter_nil]
      rw [filter_drop_absent_key p.2.user_id (keysOf rest) old hnone]
      rw [List.append_assoc]
      exact List.Perm.refl _

theorem computeEntries_keys (stats : String → MemberStats) :
    ∀ members : List Member, (∀ m ∈ members, m.id ≠ "") →
      (computeEntries stats members).map LBEntry.user_id = members.map Member.id := by
  intro members
  induction members with
  | nil => intro _; rfl
  | cons m rest ih =>
    intro h
    simp only [computeEntries]
    rw [if_neg (h m (List.mem_cons_self m rest))]
    simp only [List.map_cons]
    rw [ih (fun q hq => h q (List.mem_cons_of_mem m hq))]
    rfl

theorem enumRanks_keys (l : List LBEntry) :
    keysOf (enumRanks l) = l.map LBEntry.user_id := by
  unfold keysOf enumRanks
  rw [List.map_map]
  show l.enum.map ((fun e : LBEntry => e.user_id) ∘ Prod.snd) = _
  rw [← List.map_map, List.enum_map_snd]

theorem enumRanks_ranks (l : List LBEntry) :
    (enumRanks l).map Prod.fst = List.range' 1 l.length := by
  unfold enumRanks
  rw [List.map_map]
  show l.enum.map ((fun n => n + 1) ∘ Prod.fst) = _
  rw [← List.map_map, List.enum_map_fst, List.range'_eq_map_range]
  exact List.map_congr_left (fun a _ => Nat.add_comm a 1)

/-- C9, amended.  The unconditional claim is false: stale rows of
removed members survive the Rank stage untouched (see the
counterexample below).  Provided every pre-existing leaderboard row
for the room belongs to a current member (and member ids are distinct
and non-empty, table keys unduplicated), the persisted leaderboard
after the Rank stage has exactly one row per member, the computed
order is sorted by score descending with lowercased username ascending
as tie-break, the persisted ranks are exactly the contiguous sequence
1..N, and each row's rank points back to its entry's position in the
sorted order. -/
theorem C9_leaderboard_complete_sorted_contiguous (members : List Member)
    (stats : String → MemberStats) (old : List LBRow)
    (hmem : members ≠ [])
    (hnodup : (members.map Member.id).Nodup)
    (hne : ∀ m ∈ members, m.id ≠ "")
    (hold : (rowKeys old).Nodup)
    (hcov : ∀ r ∈ old, r.user_id ∈ members.map Member.id) :
    ((update_workroom_leaderboard true members stats old).map LBRow.user_id).Perm
        (members.map Member.id) ∧
    ((update_workroom_leaderboard true members stats old).map LBRow.rank).Perm
        (List.range' 1 members.length) ∧
    List.Sorted lbLe (List.insertionSort lbLe (computeEntries stats members)) ∧
    ∀ row ∈ update_workroom_leaderboard true members stats old,
      ∃ e, (List.insertionSort lbLe (computeEntries stats members))[row.rank - 1]?
          = some e ∧
        e.user_id = row.user_id ∧ e.score = row.score := by
  have hulb : update_workroom_leaderboard true members stats old
      = (enumRanks (List.insertionSort lbLe (computeEntries stats members))).foldl
          upsertRow old := by
    unfold update_workroom_leaderboard
    rw [if_neg (by simp), if_neg (by simp [List.isEmpty_iff, hmem])]
  have hkeys1 : (computeEntries stats members).map LBEntry.user_id
      = members.map Member.id := computeEntries_keys stats members hne
  have hperm : (List.insertionSort lbLe (computeEntries stats members)).Perm
      (computeEntries stats members) := List.perm_insertionSort lbLe _
  have hkeysperm : ((List.insertionSort lbLe (computeEntries stats members)).map
      LBEntry.user_id).Perm (members.map Member.id) := by
    rw [← hkeys1]
    exact hperm.map _
  have henum : keysOf (enumRanks (List.insertionSort lbLe (computeEntries stats members)))
      = (List.insertionSort lbLe (computeEntries stats members)).map LBEntry.user_id :=
    enumRanks_keys _
  have hknodup : (keysOf (enumRanks (List.insertionSort lbLe
      (computeEntries stats members)))).Nodup := by
    rw [henum]
    exact hkeysperm.nodup_iff.mpr hnodup
  have hkne : ∀ p ∈ enumRanks (List.insertionSort lbLe (computeEntries stats members)),
      p.2.user_id ≠ "" := by
    intro p hp hcontra
    have hmemk : p.2.user_id ∈ keysOf (enumRanks (List.insertionSort lbLe
        (computeEntries stats members))) := List.mem_map_of_mem _ hp
    rw [henum] at hmemk
    rcases List.mem_map.mp (hkeysperm.mem_iff.mp hmemk) with ⟨m, hm, hmid⟩
    exact hne m hm (by rw [hmid, hcontra])
  have hfold := foldl_upsert_perm
    (enumRanks (List.insertionSort lbLe (computeEntries stats members))) old
    hknodup hkne hold
  have hfilter : old.filter (notKeyed (keysOf (enumRanks (List.insertionSort lbLe
      (computeEntries stats members))))) = [] := by
    rw [List.filter_eq_nil_iff]
    intro r hr
    have hrmem : r.user_id ∈ keysOf (enumRanks (List.insertionSort lbLe
        (computeEntries stats members))) := by
      rw [henum]
      exact hkeysperm.mem_iff.mpr (hcov r hr)
    simp [notKeyed, hrmem]
  rw [hfilter, List.nil_append] at hfold
  have hmapu : ((enumRanks (List.insertionSort lbLe
      (computeEntries stats members))).map rowOf).map LBRow.user_id
      = keysOf (enumRanks (List.insertionSort lbLe (computeEntries stats members))) := by
    rw [List.map_map]
    rfl
  have hmapr : ((enumRanks (List.insertionSort lbLe
      (computeEntries stats members))).map rowOf).map LBRow.rank
      = (enumRanks (List.insertionSort lbLe (computeEntries stats members))).map
          Prod.fst := by
    rw [List.map_map]
    rfl
  have hlen : (List.insertionSort lbLe (computeEntries stats members)).length
      = members.length := by
    have h1 := congrArg List.length hkeys1
    simp only [List.length_map] at h1
    rw [List.length_insertionSort, h1]
  refine ⟨?_, ?_, List.sorted_insertionSort lbLe _, ?_⟩
  · rw [hulb]
    refine (hfold.map LBRow.user_id).trans ?_
    rw [hmapu, henum]
    exact hkeysperm
  · rw [hulb]
    refine (hfold.map LBRow.rank).trans ?_
    rw [hmapr, enumRanks_ranks, hlen]
  · intro row hrow
    rw [hulb] at hrow
    have hrow2 := (hfold.map id).mem_iff.mp (by simpa using hrow)
    simp only [List.map_id] at hrow2
    rcases List.mem_map.mp hrow2 with ⟨p, hp, hrp⟩
    rcases List.mem_map.mp hp with ⟨q, hq, hqp⟩
    have hget : (List.insertionSort lbLe (computeEntries stats members))[q.1]?
        = some q.2 := List.mem_enum_iff_getElem?.mp hq
    refine ⟨q.2, ?_, ?_, ?_⟩
    · rw [← hrp, ← hqp]
      simpa [rowOf] using hget
    · rw [← hrp, ← hqp]
      rfl
    · rw [← hrp, ← hqp]
      rfl

/-- Witness for C9: two members with equal (zero) scores; the
leaderboard after the update has one row per member, ranks 1 and 2, in
lowercased-username order. -/
theorem C9_leaderboard_complete_sorted_contiguous_witness :
    (membersW ≠ [] ∧ (membersW.map Member.id).Nodup ∧ (∀ m ∈ membersW, m.id ≠ "")) ∧
    (((update_workroom_leaderboard true membersW statsW []).map LBRow.user_id).Perm
        (membersW.map Member.id) ∧
     ((update_workroom_leaderboard true membersW statsW []).map LBRow.rank).Perm
        (List.range' 1 membersW.length) ∧
     List.Sorted lbLe (List.insertionSort lbLe (computeEntries statsW membersW)) ∧
     ∀ row ∈ update_workroom_leaderboard true membersW statsW [],
       ∃ e, (List.insertionSort lbLe (computeEntries statsW membersW))[row.rank - 1]?
           = some e ∧
         e.user_id = row.user_id ∧ e.score = row.score) :=
  ⟨⟨by decide, by decide, by decide⟩,
   C9_leaderboard_complete_sorted_contiguous membersW statsW []
     (by decide) (by decide) (by decide) (by decide) (by decide)⟩

/-- C9 counterexample.  The claim as stated fails on reachable tables:
removing a member deletes only the membership link and the save loop
never deletes rows, so a stale row of an ex-member survives the Rank
stage.  With current members u1 and u2 and a stale row for u0 carrying
rank 1, the updated table has three rows for two members, so it has
neither exactly one entry per member nor ranks forming the contiguous
sequence 1..N. -/
theorem C9_counterexample_stale_row_persists :
    ¬ (((update_workroom_leaderboard true membersW statsW [staleRowW]).map
        LBRow.user_id).Perm (membersW.map Member.id)) ∧
    ¬ (((update_workroom_leaderboard true membersW statsW [staleRowW]).map
        LBRow.rank).Perm (List.range' 1 membersW.length)) := by
  have hulb : update_workroom_leaderboard true membersW statsW [staleRowW]
      = (enumRanks (List.insertionSort lbLe (computeEntries statsW membersW))).foldl
          upsertRow [staleRowW] := by
    unfold update_workroom_leaderboard
    rw [if_neg (by simp), if_neg (by decide)]
  have hne2 : ∀ m ∈ membersW, m.id ≠ "" := by decide
  have hkeys1 : (computeEntries statsW membersW).map LBEntry.user_id
      = membersW.map Member.id := computeEntries_keys statsW membersW hne2
  have hperm : (List.insertionSort lbLe (computeEntries statsW membersW)).Perm
      (computeEntries statsW membersW) := List.perm_insertionSort lbLe _
  have hkeysperm : ((List.insertionSort lbLe (computeEntries statsW membersW)).map
      LBEntry.user_id).Perm (membersW.map Member.id) := by
    rw [← hkeys1]
    exact hperm.map _
  have henum : keysOf (enumRanks (List.insertionSort lbLe (computeEntries statsW membersW)))
      = (List.insertionSort lbLe (computeEntries statsW membersW)).map LBEntry.user_id :=
    enumRanks_keys _
  have hknodup : (keysOf (enumRanks (List.insertionSort lbLe
      (computeEntries statsW membersW)))).Nodup := by
    rw [henum]
    exact hkeysperm.nodup_iff.mpr (by decide)
  have hkne : ∀ p ∈ enumRanks (List.insertionSort lbLe (computeEntries statsW membersW)),
      p.2.user_id ≠ "" := by
    intro p hp hcontra
    have hmemk : p.2.user_id ∈ keysOf (enumRanks (List.insertionSort lbLe
        (computeEntries statsW membersW))) := List.mem_map_of_mem _ hp
    rw [henum] at hmemk
    rcases List.mem_map.mp (hkeysperm.mem_iff.mp hmemk) with ⟨m, hm, hmid⟩
    exact hne2 m hm (by rw [hmid, hcontra])
  have holdn : (rowKeys [staleRowW]).Nodup := by decide
  have hfold := foldl_upsert_perm
    (enumRanks (List.insertionSort lbLe (computeEntries statsW membersW))) [staleRowW]
    hknodup hkne holdn
  have hstale : ("u0" : String) ∉ keysOf (enumRanks (List.insertionSort lbLe
      (computeEntries statsW membersW))) := by
    rw [henum]
    intro hmm
    have h2 := hkeysperm.mem_iff.mp hmm
    revert h2
    decide
  have hfilter : ([staleRowW].filter (notKeyed (keysOf (enumRanks (List.insertionSort lbLe
      (computeEntries statsW membersW)))))) = [staleRowW] := by
    rw [List.filter_eq_self]
    intro r hr
    rw [List.mem_singleton] at hr
    subst hr
    simp only [notKeyed, Bool.not_eq_true', decide_eq_false_iff_not]
    exact hstale
  have henl : (enumRanks (List.insertionSort lbLe (computeEntries statsW membersW))).length
      = 2 := by
    unfold enumRanks
    rw [List.length_map, List.enum_length, List.length_insertionSort]
    decide
  have hlen3 : (update_workroom_leaderboard true membersW statsW [staleRowW]).length = 3 := by
    rw [hulb, hfold.length_eq, hfilter, List.length_append, List.length_map, henl]
    rfl
  constructor
  · intro hp
    have h1 := hp.length_eq
    rw [List.length_map, hlen3, List.length_map] at h1
    revert h1
    decide
  · intro hp
    have h1 := hp.length_eq
    rw [List.length_map, hlen3, List.length_range'] at h1
    revert h1
    decide

end Hudddle
